import Mathlib

/-!
Verification development for the YARBS alignment-visualization and
scaffolding-modification engine.  The definitions below are shallow
embeddings of the JavaScript sources: `src/utils/visualizationUpdater.js`
(modification engine), `src/utils/drawingUtils.js` (layout), the
`allowedContigsSet` memo of `src/components/DotPlot.jsx` (visibility
filter), the workspace handlers of `src/App.js` (workspace manager and
undo), and the camera handlers of `DotPlot.jsx` / `Toolbar.jsx`
(interaction controller).  JavaScript numbers standing for base-pair
coordinates are modelled as `Int`; percentages and fractional screen
quantities as `Rat`.
-/

namespace YARBS

/-- Last `n` elements of a list; models JavaScript `Array.slice(-n)`. -/
def takeLast {α : Type} (n : Nat) (l : List α) : List α :=
  l.drop (l.length - n)

/-- JavaScript `Math.max` on two rationals. -/
def jsMax (a b : Rat) : Rat :=
  if a ≤ b then b else a

/-- JavaScript `Math.min` on two rationals. -/
def jsMin (a b : Rat) : Rat :=
  if a ≤ b then a else b

/-- One pairwise alignment record, with the mutable bookkeeping fields the
modification engine adds (`isInverted`, `wasModified`, the cached
pre-invert coordinates, and the break flags). -/
structure Alignment where
  ref : String
  query : String
  refStart : Int
  refEnd : Int
  queryStart : Int
  queryEnd : Int
  identity : Rat
  length : Int
  tag : String
  alignedOrientation : String
  isInverted : Bool := false
  wasModified : Bool := false
  originalQueryStart : Option Int := none
  originalQueryEnd : Option Int := none
  isBrokenAlignment : Bool := false
  isPartial : Bool := false
deriving Repr, DecidableEq

/-- One query contig. -/
structure Query where
  name : String
  length : Int
  orientation : String
  isBroken : Bool := false
  isInverted : Bool := false
  originalName : Option String := none
  segmentNumber : Option Nat := none
deriving Repr, DecidableEq

/-- One reference chromosome. -/
structure Reference where
  name : String
  length : Int
deriving Repr, DecidableEq

/-- The parsed dataset: `{references, queries, alignments}`. -/
structure Dataset where
  references : List Reference
  queries : List Query
  alignments : List Alignment
deriving Repr, DecidableEq

/-- A recorded modification.  `type` is `"invert"`, `"break"` or
`"reorder"`; `position` is only meaningful for breaks.  `contigName` is an
alternative field name some producers use (`DotPlot.jsx` checks both
`m.query` and `m.contigName`). -/
structure Modification where
  type : String
  query : String := ""
  position : Int := 0
  timestamp : Int := 0
  contigName : Option String := none
deriving Repr, DecidableEq

/-- JavaScript falsiness of the cached coordinate field: the guard
`if (!alignment.originalQueryStart)` in `applyInversion` is true both when
the field is absent and when it holds the number `0`. -/
def jsFalsy : Option Int → Bool
  | none => true
  | some v => v == 0

/-- Per-alignment body of `applyInversion` (visualizationUpdater.js
lines 199-220): cache the current query coordinates when the cache field
is falsy, then replace the query coordinates by the mirror of the cached
values around the contig length. -/
def invertAlignment (querySeq : Query) (a : Alignment) : Alignment :=
  let cachedStart : Int :=
    if jsFalsy a.originalQueryStart then a.queryStart else a.originalQueryStart.getD 0
  let cachedEnd : Int :=
    if jsFalsy a.originalQueryStart then a.queryEnd else a.originalQueryEnd.getD 0
  { a with
    originalQueryStart := some cachedStart
    originalQueryEnd := some cachedEnd
    queryStart := querySeq.length - cachedEnd
    queryEnd := querySeq.length - cachedStart
    isInverted := true
    wasModified := true }

/-- `applyInversion` (visualizationUpdater.js lines 188-225): no-op with a
warning when the query is not found; otherwise rewrite every alignment of
that query and toggle the contig's orientation flag. -/
def applyInversion (data : Dataset) (query : String) : Dataset :=
  match data.queries.find? (fun q => q.name == query) with
  | none => data
  | some querySeq =>
    { data with
      alignments := data.alignments.map fun a =>
        if a.query == query then invertAlignment querySeq a else a
      queries := data.queries.map fun q =>
        if q.name == query then
          { q with
            orientation := if q.orientation == "+" then "-" else "+"
            isInverted := true }
        else q }

/-- Left segment produced by `applyBreak` (visualizationUpdater.js
lines 243-250). -/
def leftSegment (querySeq : Query) (query : String) (position : Int) : Query :=
  { querySeq with
    name := query ++ "_1"
    length := position
    isBroken := true
    originalName := some query
    segmentNumber := some 1 }

/-- Right segment produced by `applyBreak` (visualizationUpdater.js
lines 252-259). -/
def rightSegment (querySeq : Query) (query : String) (position : Int) : Query :=
  { querySeq with
    name := query ++ "_2"
    length := querySeq.length - position
    isBroken := true
    originalName := some query
    segmentNumber := some 2 }

/-- Reclassification of one alignment of the broken contig
(visualizationUpdater.js lines 269-308): wholly left, wholly right, or
split into two partial alignments clipped at the break. -/
def breakAlignment (query : String) (position : Int) (a : Alignment) : List Alignment :=
  if a.queryEnd ≤ position then
    [{ a with query := query ++ "_1", isBrokenAlignment := true }]
  else if position ≤ a.queryStart then
    [{ a with
        query := query ++ "_2"
        queryStart := a.queryStart - position
        queryEnd := a.queryEnd - position
        isBrokenAlignment := true }]
  else
    [{ a with
        query := query ++ "_1"
        queryEnd := position
        isBrokenAlignment := true
        isPartial := true },
     { a with
        query := query ++ "_2"
        queryStart := 0
        queryEnd := a.queryEnd - position
        isBrokenAlignment := true
        isPartial := true }]

/-- Replace the first list entry whose name matches `query` by the given
segments; models `findIndex` followed by `splice(queryIndex, 1, left,
right)` in `applyBreak`. -/
def replaceFirstByName : List Query → String → List Query → List Query
  | [], _, _ => []
  | q :: rest, query, segs =>
    if q.name == query then segs ++ rest else q :: replaceFirstByName rest query segs

/-- `applyBreak` (visualizationUpdater.js lines 232-313): no-op with a
warning when the query is not found; otherwise replace the contig by its
two segments and reclassify its alignments.  Note the source performs no
validation of `position`. -/
def applyBreak (data : Dataset) (query : String) (position : Int) : Dataset :=
  match data.queries.find? (fun q => q.name == query) with
  | none => data
  | some querySeq =>
    { data with
      queries :=
        replaceFirstByName data.queries query
          [leftSegment querySeq query position, rightSegment querySeq query position]
      alignments :=
        data.alignments.filter (fun a => !(a.query == query)) ++
          (data.alignments.filter (fun a => a.query == query)).flatMap
            (breakAlignment query position) }

/-- Dispatch on the modification type (visualizationUpdater.js
lines 159-173); `"reorder"` and unknown types leave the data unchanged. -/
def applyModification (data : Dataset) (m : Modification) : Dataset :=
  if m.type == "invert" then applyInversion data m.query
  else if m.type == "break" then applyBreak data m.query m.position
  else data

/-- Sort key used by both `applyContigReordering` and
`calculateScales`: the explicit contig order when present, else the
sentinel `999999`. -/
def orderKey (contigOrder : List (String × Nat)) (q : Query) : Nat :=
  (contigOrder.lookup q.name).getD 999999

/-- Stable ascending sort of the query list by `orderKey`; models the
JavaScript `sort((a, b) => orderA - orderB)`, which is stable. -/
def orderedQueries (queries : List Query) (contigOrder : List (String × Nat)) : List Query :=
  List.insertionSort (fun a b => orderKey contigOrder a ≤ orderKey contigOrder b) queries

/-- `applyContigReordering` (visualizationUpdater.js lines 320-327). -/
def applyContigReordering (data : Dataset) (contigOrder : List (String × Nat)) : Dataset :=
  { data with queries := orderedQueries data.queries contigOrder }

/-- `applyModificationsToVisualization` (visualizationUpdater.js
lines 154-181): deep-copy the original, fold the modifications over it in
list order, then apply the manual contig ordering when one is present. -/
def applyModificationsToVisualization (originalData : Dataset)
    (modifications : List Modification) (contigOrder : List (String × Nat)) : Dataset :=
  let data := modifications.foldl applyModification originalData
  if contigOrder.isEmpty then data else applyContigReordering data contigOrder

/-! Layout computation, from `src/utils/drawingUtils.js`. -/

/-- Gap inserted after a contig in the vertical stacking
(`calculateQueryOffsets`, drawingUtils.js lines 92-103): the larger of one
megabase and a tenth of the contig length, halved for break-derived
segments. -/
def queryGap (q : Query) : Rat :=
  let gap : Rat := jsMax 1000000 ((q.length : Rat) * (1 / 10))
  if q.isBroken then gap * (1 / 2) else gap

/-- Accumulating pass of `calculateQueryOffsets`: record the running
offset for each contig name, then advance it by the contig length plus
its gap. -/
def offsetsAux (currentOffset : Rat) : List Query → List (String × Rat)
  | [] => []
  | q :: rest =>
    (q.name, currentOffset) :: offsetsAux (currentOffset + (q.length : Rat) + queryGap q) rest

/-- `calculateQueryOffsets` (drawingUtils.js lines 88-107): vertical
stacking offsets for the (already ordered) query list. -/
def calculateQueryOffsets (queries : List Query) : List (String × Rat) :=
  offsetsAux 0 queries

/-- The ordered query list computed inside `calculateScales`
(drawingUtils.js lines 60-64): the queries sorted by `orderKey`. -/
def calculateScalesOrderedQueries (data : Dataset) (contigOrder : List (String × Nat)) :
    List Query :=
  orderedQueries data.queries contigOrder

/-! Visibility filter, from the memos of `src/components/DotPlot.jsx`,
and the best-identity statistic of `src/components/Toolbar.jsx`. -/

/-- The alignments grouped under a contig by `contigAlignmentsMap`
(DotPlot.jsx lines 64-77): alignments to the selected reference whose tag
is `unique` or `unique_short`. -/
def uniqueAlignmentsFor (data : Dataset) (selectedRef : String) (contig : String) :
    List Alignment :=
  data.alignments.filter fun a =>
    a.ref == selectedRef && (a.tag == "unique" || a.tag == "unique_short") && a.query == contig

/-- First-occurrence deduplication with an accumulator of already seen
names; models JavaScript `Map` key insertion order. -/
def firstDedupAux (seen : List String) : List String → List String
  | [] => []
  | x :: rest =>
    if x ∈ seen then firstDedupAux seen rest else x :: firstDedupAux (x :: seen) rest

/-- The key set of `contigAlignmentsMap`: contigs having at least one
unique/unique_short alignment to the selected reference. -/
def contigsWithUnique (data : Dataset) (selectedRef : String) : List String :=
  firstDedupAux []
    ((data.alignments.filter fun a =>
        a.ref == selectedRef && (a.tag == "unique" || a.tag == "unique_short")).map
      (·.query))

/-- A named, ordered bundle of contigs (`createChromosomeGroup`,
App.js). -/
structure Group where
  contigs : List String
  order : List Nat
  visible : Bool
  createdOn : String
deriving Repr, DecidableEq

/-- Whether a contig belongs to any chromosome group (DotPlot.jsx
lines 87-89). -/
def isInGroup (chromosomeGroups : List (String × Group)) (contig : String) : Bool :=
  chromosomeGroups.any fun p => p.2.contigs.contains contig

/-- Whether a contig has any recorded modification (DotPlot.jsx
lines 92-94): the source checks both `m.query` and `m.contigName`. -/
def hasModifications (modifications : List Modification) (contig : String) : Bool :=
  modifications.any fun m => m.query == contig || m.contigName == some contig

/-- The visibility-relevant view settings of App.js. -/
structure Settings where
  showRepetitive : Bool := true
  showAllAlignments : Bool := true
  minAlignmentLength : Int := 0
  minUniqueRatio : Rat
  minContigSize : Int
deriving Repr, DecidableEq

/-- Membership test of one contig in the `allowedContigsSet` memo
(DotPlot.jsx lines 80-129).  The memo iterates over the keys of
`contigAlignmentsMap`, so a contig with no unique/unique_short alignment
to the selected reference is never allowed; grouped or modified contigs
are allowed unconditionally; uninformative contigs are skipped; otherwise
the contig passes the minimum-size check and the unique-ratio
threshold. -/
def allowedContig (data : Dataset) (selectedRef : String)
    (chromosomeGroups : List (String × Group)) (modifications : List Modification)
    (uninformativeContigs : List String) (settings : Settings) (contig : String) : Bool :=
  let als := uniqueAlignmentsFor data selectedRef contig
  if als.isEmpty then false
  else if isInGroup chromosomeGroups contig || hasModifications modifications contig then true
  else if uninformativeContigs.contains contig then false
  else
    match data.queries.find? (fun q => q.name == contig) with
    | none => false
    | some contigInfo =>
      if settings.minContigSize > 0 && contigInfo.length < settings.minContigSize then false
      else
        let totalLength : Int := (als.map (·.length)).foldl (· + ·) 0
        decide (settings.minUniqueRatio ≤ (totalLength : Rat) / (contigInfo.length : Rat))

/-- The allowed-contig set of DotPlot.jsx, as the filtered key list of
`contigAlignmentsMap`. -/
def allowedContigsSet (data : Dataset) (selectedRef : String)
    (chromosomeGroups : List (String × Group)) (modifications : List Modification)
    (uninformativeContigs : List String) (settings : Settings) : List String :=
  (contigsWithUnique data selectedRef).filter
    (allowedContig data selectedRef chromosomeGroups modifications uninformativeContigs settings)

/-- Best alignment identity of a contig, as computed by
`getContigsForReference` in Toolbar.jsx (the `maxIdentity` fold starting
at 0). -/
def bestAlignmentIdentity (data : Dataset) (selectedRef : String) (contig : String) : Rat :=
  ((uniqueAlignmentsFor data selectedRef contig).map (·.identity)).foldl jsMax 0

/-- Length of a named contig, defaulting to 0 when absent. -/
def contigLengthOf (data : Dataset) (contig : String) : Int :=
  ((data.queries.find? (fun q => q.name == contig)).map (·.length)).getD 0

/-- Whether a contig is grouped or modified (exempt from all filters and,
per the documentation, from the display cap). -/
def groupedOrModified (chromosomeGroups : List (String × Group))
    (modifications : List Modification) (contig : String) : Bool :=
  isInGroup chromosomeGroups contig || hasModifications modifications contig

/-- Result of the capped visibility computation: the allowed set plus the
per-contig metadata distinguishing contigs hidden by the ratio/size
filter from contigs hidden by the display cap. -/
structure CapResult where
  allowedSet : List String
  hiddenByFilter : List String
  hiddenByCap : List String
  capApplied : Bool
deriving Repr, DecidableEq

/-- Modelled from the spec: the display-cap stage of the visibility
filter.  The source computing `capMetadata`/the capped `allowedContigsSet`
is not under `src/` — only its consumers are (`Toolbar.jsx` reads
`capMetadata.capApplied`/`cappedCount`, and the prop-taking `DotPlot`
variant receives the pre-capped set) — so this stage follows the spec's
words: after the visibility rules, if the resulting set exceeds the
display cap (default 500), truncate to the cap largest-by-length contigs,
keeping grouped or modified contigs regardless of the cap, and retain
metadata distinguishing contigs hidden by the ratio/size filter from
contigs hidden by the cap. -/
def computeAllowedWithCap (data : Dataset) (selectedRef : String)
    (chromosomeGroups : List (String × Group)) (modifications : List Modification)
    (uninformativeContigs : List String) (settings : Settings) (cap : Nat := 500) :
    CapResult :=
  let contigs := contigsWithUnique data selectedRef
  let pass := allowedContig data selectedRef chromosomeGroups modifications
    uninformativeContigs settings
  let allowed0 := contigs.filter pass
  let hiddenF := contigs.filter fun c => !(pass c)
  if allowed0.length ≤ cap then
    { allowedSet := allowed0, hiddenByFilter := hiddenF, hiddenByCap := [], capApplied := false }
  else
    let exempt := allowed0.filter (groupedOrModified chromosomeGroups modifications)
    let rest := allowed0.filter fun c => !(groupedOrModified chromosomeGroups modifications c)
    let restSorted :=
      List.insertionSort
        (fun c1 c2 => contigLengthOf data c2 ≤ contigLengthOf data c1) rest
    { allowedSet := exempt ++ restSorted.take (cap - exempt.length)
      hiddenByFilter := hiddenF
      hiddenByCap := restSorted.drop (cap - exempt.length)
      capApplied := true }

/-! Workspace manager, from `src/App.js` (reference-scoped workspaces,
history and undo).  The `lastModified` timestamp is omitted: it is set to
the wall clock on every update and takes part in no claim. -/

/-- The deep snapshot of the five mutable workspace fields pushed by
`saveToHistory` (App.js lines 192-207). -/
structure Snapshot where
  modifications : List Modification
  chromosomeGroups : List (String × Group)
  contigOrder : List (String × Nat)
  uninformativeContigs : List String
  selectedContigs : List String
deriving Repr, DecidableEq

/-- One per-reference workspace (App.js `getWorkspace`). -/
structure Workspace where
  contigOrder : List (String × Nat)
  modifications : List Modification
  chromosomeGroups : List (String × Group)
  uninformativeContigs : List String
  selectedContigs : List String
  saved : Bool
  history : List Snapshot
deriving Repr, DecidableEq

/-- The snapshot of a workspace's five mutable fields. -/
def snap (w : Workspace) : Snapshot :=
  { modifications := w.modifications
    chromosomeGroups := w.chromosomeGroups
    contigOrder := w.contigOrder
    uninformativeContigs := w.uninformativeContigs
    selectedContigs := w.selectedContigs }

/-- `saveToHistory` (App.js lines 192-207): push the snapshot and keep the
last 50 entries (`slice(-50)`); like every `updateWorkspace` call it
clears the saved flag. -/
def saveToHistory (w : Workspace) : Workspace :=
  { w with history := takeLast 50 (w.history ++ [snap w]), saved := false }

/-- Insert-or-replace into a string-keyed object, preserving key insertion
order as JavaScript objects do. -/
def setKey (l : List (String × Group)) (k : String) (v : Group) : List (String × Group) :=
  if l.any (fun p => p.1 == k) then
    l.map fun p => if p.1 == k then (k, v) else p
  else l ++ [(k, v)]

/-- `addModification` (App.js lines 225-231): save to history, then append
the modification stamped with the current time. -/
def addModification (w : Workspace) (m : Modification) (now : Int) : Workspace :=
  let w1 := saveToHistory w
  { w1 with modifications := w1.modifications ++ [{ m with timestamp := now }], saved := false }

/-- `removeModification` (App.js lines 233-239): save to history, then
drop the modification at the given index. -/
def removeModification (w : Workspace) (index : Nat) : Workspace :=
  let w1 := saveToHistory w
  { w1 with modifications := w1.modifications.eraseIdx index, saved := false }

/-- `createChromosomeGroup` (App.js lines 242-260). -/
def createChromosomeGroup (w : Workspace) (groupName : String) (contigs : List String)
    (selectedRef : String) : Workspace :=
  let w1 := saveToHistory w
  let newGroup : Group :=
    { contigs := contigs
      order := List.range contigs.length
      visible := true
      createdOn := selectedRef }
  { w1 with chromosomeGroups := setKey w1.chromosomeGroups groupName newGroup, saved := false }

/-- `deleteChromosomeGroup` (App.js lines 262-272). -/
def deleteChromosomeGroup (w : Workspace) (groupName : String) : Workspace :=
  let w1 := saveToHistory w
  { w1 with
    chromosomeGroups := w1.chromosomeGroups.filter (fun p => !(p.1 == groupName))
    saved := false }

/-- `updateContigOrder` (App.js lines 457-463): save to history, then
replace the contig-order mapping. -/
def updateContigOrder (w : Workspace) (newOrder : List (String × Nat)) : Workspace :=
  let w1 := saveToHistory w
  { w1 with contigOrder := newOrder, saved := false }

/-- `setSelectedContigsForWorkspace` (App.js lines 466-471): note that it
does not call `saveToHistory`. -/
def setSelectedContigsForWorkspace (w : Workspace) (contigs : List String) : Workspace :=
  { w with selectedContigs := contigs, saved := false }

/-- `setUninformativeContigsForWorkspace` (App.js lines 473-478): note
that it does not call `saveToHistory`. -/
def setUninformativeContigsForWorkspace (w : Workspace) (contigs : List String) : Workspace :=
  { w with uninformativeContigs := contigs, saved := false }

/-- `handleUndo` (App.js lines 210-222): a no-op on empty history, else
restore the five fields from the most recent snapshot and pop it. -/
def handleUndo (w : Workspace) : Workspace :=
  match w.history.getLast? with
  | none => w
  | some previousState =>
    { w with
      modifications := previousState.modifications
      chromosomeGroups := previousState.chromosomeGroups
      contigOrder := previousState.contigOrder
      uninformativeContigs := previousState.uninformativeContigs
      selectedContigs := previousState.selectedContigs
      saved := false
      history := w.history.dropLast }

/-- The five history-pushing mutating workspace operations. -/
inductive WsOp where
  | addMod (m : Modification) (now : Int)
  | removeMod (index : Nat)
  | createGroup (name : String) (contigs : List String) (selectedRef : String)
  | deleteGroup (name : String)
  | setOrder (newOrder : List (String × Nat))
deriving Repr, DecidableEq

/-- Apply one history-pushing operation. -/
def applyWsOp (w : Workspace) : WsOp → Workspace
  | .addMod m now => addModification w m now
  | .removeMod i => removeModification w i
  | .createGroup n cs r => createChromosomeGroup w n cs r
  | .deleteGroup n => deleteChromosomeGroup w n
  | .setOrder o => updateContigOrder w o

/-- Apply a sequence of operations left to right. -/
def applyWsOps (w : Workspace) (ops : List WsOp) : Workspace :=
  ops.foldl applyWsOp w

/-- Perform `n` consecutive undos. -/
def undoN : Nat → Workspace → Workspace
  | 0, w => w
  | n + 1, w => handleUndo (undoN n w)

/-- The application-level pairing of the immutable original dataset with
the derived working dataset (`originalData` / `data` in App.js). -/
structure AppDataState where
  originalData : Dataset
  data : Dataset
deriving Repr, DecidableEq

/-- The re-derivation effect of App.js lines 182-189: when the
modification list is non-empty the working dataset is recomputed from the
original; otherwise it is reset to a copy of the original.  Only the
`data` field is ever written. -/
def deriveEffect (s : AppDataState) (modifications : List Modification)
    (contigOrder : List (String × Nat)) : AppDataState :=
  { s with
    data :=
      if modifications.isEmpty then s.originalData
      else applyModificationsToVisualization s.originalData modifications contigOrder }

/-! Interaction controller: the camera handlers of `DotPlot.jsx`
(`handleWheel`, `handleMouseDown`, `handleMouseMove`, `handleMouseUp`) and
the Toolbar camera buttons.  The zoom in/out buttons are rendered only in
exploration mode (Toolbar.jsx line 145, `explorationMode && (...)`), so a
click on them can only be delivered in exploration mode; the Reset View
button is rendered unconditionally. -/

/-- Camera and gesture state. -/
structure ViewState where
  zoom : Rat
  panX : Rat
  panY : Rat
  explorationMode : Bool
  isDragging : Bool
  dragStartX : Rat
  dragStartY : Rat
  loading : Bool
deriving Repr, DecidableEq

/-- User events that reach the camera state. -/
inductive CameraEvent where
  | wheel (mouseX mouseY deltaY : Rat)
  | mouseDown (x y : Rat)
  | mouseMove (x y : Rat)
  | mouseUp
  | toolbarZoomIn
  | toolbarZoomOut
  | resetViewClick
deriving Repr, DecidableEq

/-- `handleWheel` (DotPlot.jsx lines 194-214): no zooming outside
exploration mode; otherwise clamp the new zoom to `[0.1, 10]` and adjust
the pan so the point under the cursor stays fixed. -/
def handleWheel (s : ViewState) (mouseX mouseY deltaY : Rat) : ViewState :=
  if !s.explorationMode then s
  else
    let delta := deltaY * (-1 / 1000)
    let newZoom := jsMax (1 / 10) (jsMin 10 (s.zoom + delta))
    let zoomRatio := newZoom / s.zoom
    { s with
      zoom := newZoom
      panX := mouseX - (mouseX - s.panX) * zoomRatio
      panY := mouseY - (mouseY - s.panY) * zoomRatio }

/-- `handleMouseDown` (DotPlot.jsx lines 220-230). -/
def handleMouseDown (s : ViewState) (x y : Rat) : ViewState :=
  if s.loading || !s.explorationMode then s
  else { s with isDragging := true, dragStartX := x - s.panX, dragStartY := y - s.panY }

/-- `handleMouseMove` (DotPlot.jsx lines 232-243). -/
def handleMouseMove (s : ViewState) (x y : Rat) : ViewState :=
  if !s.explorationMode || !s.isDragging then s
  else { s with panX := x - s.dragStartX, panY := y - s.dragStartY }

/-- `handleMouseUp` (DotPlot.jsx lines 245-249). -/
def handleMouseUp (s : ViewState) : ViewState :=
  if s.isDragging then { s with isDragging := false } else s

/-- One step of the camera state machine.  The toolbar zoom handlers
(App.js `onZoomIn`/`onZoomOut`) carry no mode guard of their own, but the
buttons invoking them exist only in exploration mode, which is the
rendering conditional reproduced here; `resetView` (App.js lines 381-384)
is reachable from the unconditionally rendered Reset View button. -/
def cameraStep (s : ViewState) : CameraEvent → ViewState
  | .wheel mx my dy => handleWheel s mx my dy
  | .mouseDown x y => handleMouseDown s x y
  | .mouseMove x y => handleMouseMove s x y
  | .mouseUp => handleMouseUp s
  | .toolbarZoomIn =>
    if s.explorationMode then { s with zoom := jsMin (s.zoom * (6 / 5)) 10 } else s
  | .toolbarZoomOut =>
    if s.explorationMode then { s with zoom := jsMax (s.zoom / (6 / 5)) (1 / 10) } else s
  | .resetViewClick => { s with zoom := 1, panX := 0, panY := 0 }

/-! Concrete example data used by counterexamples and witnesses. -/

/-- A one-reference, one-contig dataset with a single unique alignment at
query coordinates 100-200 on a contig of length 1000. -/
def dsC1 : Dataset :=
  { references := [{ name := "chr1", length := 1000 }]
    queries := [{ name := "q1", length := 1000, orientation := "+" }]
    alignments :=
      [{ ref := "chr1", query := "q1", refStart := 0, refEnd := 100, queryStart := 100,
         queryEnd := 200, identity := 95, length := 100, tag := "unique",
         alignedOrientation := "+" }] }

/-- The contig record of `dsC1`. -/
def q1Rec : Query := { name := "q1", length := 1000, orientation := "+" }

/-- An Invert modification of contig `q1`. -/
def invertQ1 : Modification := { type := "invert", query := "q1" }

/-- A dataset for break examples: contig `qB` of length 10 with one
alignment spanning query coordinates 2-7. -/
def dsB : Dataset :=
  { references := [{ name := "chr1", length := 50 }]
    queries := [{ name := "qB", length := 10, orientation := "+" }]
    alignments :=
      [{ ref := "chr1", query := "qB", refStart := 5, refEnd := 10, queryStart := 2,
         queryEnd := 7, identity := 90, length := 5, tag := "unique",
         alignedOrientation := "+" }] }

/-- The contig record of `dsB`. -/
def qBRec : Query := { name := "qB", length := 10, orientation := "+" }

/-- A Break of `qB` at the invalid position 0. -/
def breakQBAt0 : Modification := { type := "break", query := "qB", position := 0 }

/-- A small concrete workspace with a selection and empty history. -/
def wsC3 : Workspace :=
  { contigOrder := []
    modifications := []
    chromosomeGroups := []
    uninformativeContigs := []
    selectedContigs := ["a"]
    saved := true
    history := [] }

/-- A dataset with two unordered contigs where the later input contig has
the higher best-alignment identity. -/
def dsC8 : Dataset :=
  { references := [{ name := "r", length := 1000 }]
    queries :=
      [{ name := "cA", length := 100, orientation := "+" },
       { name := "cB", length := 100, orientation := "+" }]
    alignments :=
      [{ ref := "r", query := "cA", refStart := 0, refEnd := 50, queryStart := 0,
         queryEnd := 50, identity := 50, length := 50, tag := "unique",
         alignedOrientation := "+" },
       { ref := "r", query := "cB", refStart := 50, refEnd := 100, queryStart := 0,
         queryEnd := 50, identity := 95, length := 50, tag := "unique",
         alignedOrientation := "+" }] }

/-- The first contig record of `dsC8`. -/
def qCA : Query := { name := "cA", length := 100, orientation := "+" }

/-- The second contig record of `dsC8`. -/
def qCB : Query := { name := "cB", length := 100, orientation := "+" }

/-- Visibility-filter settings with the default thresholds of App.js. -/
def settingsC4 : Settings :=
  { minUniqueRatio := 1 / 20
    minContigSize := 30000 }

/-- One chromosome group containing the contig `g`. -/
def groupsC4 : List (String × Group) :=
  [("G1", { contigs := ["g"], order := [0], visible := true, createdOn := "r" })]

/-- A dataset whose contig `g` has only a repetitive alignment to the
selected reference. -/
def dsC4 : Dataset :=
  { references := [{ name := "r", length := 1000 }]
    queries := [{ name := "g", length := 100, orientation := "+" }]
    alignments :=
      [{ ref := "r", query := "g", refStart := 0, refEnd := 50, queryStart := 0,
         queryEnd := 50, identity := 90, length := 50, tag := "repetitive",
         alignedOrientation := "+" }] }

/-- A camera state in scaffolding mode with a non-default zoom. -/
def vsC9 : ViewState :=
  { zoom := 2
    panX := 5
    panY := 7
    explorationMode := false
    isDragging := false
    dragStartX := 0
    dragStartY := 0
    loading := false }

/-- A camera state in exploration mode. -/
def vsExp : ViewState :=
  { zoom := 1
    panX := 0
    panY := 0
    explorationMode := true
    isDragging := false
    dragStartX := 0
    dragStartY := 0
    loading := false }

/-! Theorems. -/

/-- Helper: a successful `find?` splits its list at the first witness. -/
theorem find?_split {p : Query → Bool} {l : List Query} {s : Query}
    (h : l.find? p = some s) :
    ∃ pre post, l = pre ++ s :: post ∧ ∀ x ∈ pre, p x = false := by
  induction l with
  | nil => simp at h
  | cons a rest ih =>
    by_cases ha : p a
    · refine ⟨[], rest, ?_, by simp⟩
      simp [List.find?_cons, ha] at h
      simp [h]
    · have ha' : p a = false := by simpa using ha
      rw [List.find?_cons, ha'] at h
      obtain ⟨pre, post, hl, hpre⟩ := ih h
      exact ⟨a :: pre, post, by simp [hl], by
        intro x hx
        rcases List.mem_cons.mp hx with hx | hx
        · subst hx; exact ha'
        · exact hpre x hx⟩

/-- Helper: replacing the first name match on a list split at that
match. -/
theorem replaceFirstByName_append (pre : List Query) (s : Query) (post : List Query)
    (q : String) (segs : List Query)
    (hpre : ∀ x ∈ pre, (x.name == q) = false) (hs : (s.name == q) = true) :
    replaceFirstByName (pre ++ s :: post) q segs = pre ++ (segs ++ post) := by
  induction pre with
  | nil => simp [replaceFirstByName, hs]
  | cons a rest ih =>
    have ha : (a.name == q) = false := hpre a (by simp)
    have ih' := ih (fun x hx => hpre x (by simp [hx]))
    simp only [List.cons_append, replaceFirstByName, ha, Bool.false_eq_true, if_false]
    exact congrArg (a :: ·) ih'

/-- C1: deriving the working dataset with `[Invert q1, Invert q1]`
evaluated at the failing input `dsC1`.  The second inversion recomputes
the mirror of the *cached* coordinates, which reproduces the inverted
coordinates 800-900 instead of restoring the original 100-200, so
invert∘invert equals a single invert on the alignments rather than the
identity — while the contig's orientation flag does toggle back to `+`,
leaving the derived dataset internally inconsistent. -/
theorem doubleInvert_failing_input :
    (applyModificationsToVisualization dsC1 [invertQ1, invertQ1] []).alignments.map
        (fun a => (a.queryStart, a.queryEnd)) = [(800, 900)] ∧
    dsC1.alignments.map (fun a => (a.queryStart, a.queryEnd)) = [(100, 200)] ∧
    (applyModificationsToVisualization dsC1 [invertQ1, invertQ1] []).alignments =
      (applyModificationsToVisualization dsC1 [invertQ1] []).alignments ∧
    (applyModificationsToVisualization dsC1 [invertQ1, invertQ1] []).queries.map
        (·.orientation) = ["+"] ∧
    applyModificationsToVisualization dsC1 [invertQ1, invertQ1] [] ≠ dsC1 := by
  refine ⟨by decide, by decide, by decide, by decide, by decide⟩

/-- C10: `applyInversion` rewrites exactly the alignments of the inverted
query, leaving `refStart`, `refEnd`, `identity`, `tag` and `length` of
every rewritten alignment unchanged; and on an alignment without cached
pre-invert coordinates the new query coordinates are the mirror
`newStart = length − oldEnd`, `newEnd = length − oldStart`, so the
query-side span is preserved. -/
theorem applyInversion_frame (d : Dataset) (q : String) (querySeq : Query)
    (hfind : d.queries.find? (fun x => x.name == q) = some querySeq) :
    (applyInversion d q).alignments =
      d.alignments.map (fun a => if a.query == q then invertAlignment querySeq a else a) ∧
    ∀ a : Alignment,
      (invertAlignment querySeq a).refStart = a.refStart ∧
      (invertAlignment querySeq a).refEnd = a.refEnd ∧
      (invertAlignment querySeq a).identity = a.identity ∧
      (invertAlignment querySeq a).tag = a.tag ∧
      (invertAlignment querySeq a).length = a.length ∧
      (jsFalsy a.originalQueryStart = true →
        (invertAlignment querySeq a).queryStart = querySeq.length - a.queryEnd ∧
        (invertAlignment querySeq a).queryEnd = querySeq.length - a.queryStart ∧
        (invertAlignment querySeq a).queryEnd - (invertAlignment querySeq a).queryStart =
          a.queryEnd - a.queryStart) := by
  constructor
  · simp [applyInversion, hfind]
  · intro a
    refine ⟨rfl, rfl, rfl, rfl, rfl, ?_⟩
    intro hcache
    have hs : (invertAlignment querySeq a).queryStart = querySeq.length - a.queryEnd := by
      simp [invertAlignment, hcache]
    have he : (invertAlignment querySeq a).queryEnd = querySeq.length - a.queryStart := by
      simp [invertAlignment, hcache]
    refine ⟨hs, he, ?_⟩
    rw [hs, he]
    ring

/-- C10 witness: the frame property evaluated on `dsC1`. -/
theorem applyInversion_frame_witness :
    (applyInversion dsC1 "q1").alignments =
      dsC1.alignments.map
        (fun a => if a.query == "q1" then invertAlignment q1Rec a else a) ∧
    ∀ a : Alignment,
      (invertAlignment q1Rec a).refStart = a.refStart ∧
      (invertAlignment q1Rec a).refEnd = a.refEnd ∧
      (invertAlignment q1Rec a).identity = a.identity ∧
      (invertAlignment q1Rec a).tag = a.tag ∧
      (invertAlignment q1Rec a).length = a.length ∧
      (jsFalsy a.originalQueryStart = true →
        (invertAlignment q1Rec a).queryStart = q1Rec.length - a.queryEnd ∧
        (invertAlignment q1Rec a).queryEnd = q1Rec.length - a.queryStart ∧
        (invertAlignment q1Rec a).queryEnd - (invertAlignment q1Rec a).queryStart =
          a.queryEnd - a.queryStart) :=
  applyInversion_frame dsC1 "q1" q1Rec (by decide)

/-- C2: `applyBreak` at a valid position replaces the contig by the two
segments `q_1` of length `p` and `q_2` of length `L − p`, which sum to
`L`; and every alignment spanning the break is split into two partial
alignments whose query-side lengths sum to the original query-side
length. -/
theorem applyBreak_conservation (d : Dataset) (q : String) (p : Int) (querySeq : Query)
    (hfind : d.queries.find? (fun x => x.name == q) = some querySeq)
    (hp0 : 0 < p) (hpL : p < querySeq.length) :
    (leftSegment querySeq q p).name = q ++ "_1" ∧
    (leftSegment querySeq q p).length = p ∧
    (rightSegment querySeq q p).name = q ++ "_2" ∧
    (rightSegment querySeq q p).length = querySeq.length - p ∧
    (leftSegment querySeq q p).length + (rightSegment querySeq q p).length =
      querySeq.length ∧
    (∃ pre post, d.queries = pre ++ querySeq :: post ∧
      (applyBreak d q p).queries =
        pre ++ (leftSegment querySeq q p :: rightSegment querySeq q p :: post)) ∧
    ∀ a ∈ d.alignments, a.query = q → a.queryStart < p → p < a.queryEnd →
      ∃ a1 a2, breakAlignment q p a = [a1, a2] ∧
        a1 ∈ (applyBreak d q p).alignments ∧ a2 ∈ (applyBreak d q p).alignments ∧
        a1.isPartial = true ∧ a2.isPartial = true ∧
        (a1.queryEnd - a1.queryStart) + (a2.queryEnd - a2.queryStart) =
          a.queryEnd - a.queryStart := by
  have hname := List.find?_some hfind
  refine ⟨rfl, rfl, rfl, rfl, by simp [leftSegment, rightSegment], ?_, ?_⟩
  · obtain ⟨pre, post, hl, hpre⟩ := find?_split hfind
    refine ⟨pre, post, hl, ?_⟩
    simp only [applyBreak, hfind]
    rw [hl, replaceFirstByName_append pre querySeq post q _ hpre hname]
    simp
  · intro a ha haq h1 h2
    have hb : breakAlignment q p a =
        [{ a with
            query := q ++ "_1"
            queryEnd := p
            isBrokenAlignment := true
            isPartial := true },
         { a with
            query := q ++ "_2"
            queryStart := 0
            queryEnd := a.queryEnd - p
            isBrokenAlignment := true
            isPartial := true }] := by
      rw [breakAlignment, if_neg (by omega), if_neg (by omega)]
    refine ⟨_, _, hb, ?_, ?_, rfl, rfl, by dsimp only; ring⟩
    · simp only [applyBreak, hfind]
      refine List.mem_append_right _ (List.mem_flatMap.mpr ⟨a, ?_, ?_⟩)
      · exact List.mem_filter.mpr ⟨ha, by simp [haq]⟩
      · rw [hb]; simp
    · simp only [applyBreak, hfind]
      refine List.mem_append_right _ (List.mem_flatMap.mpr ⟨a, ?_, ?_⟩)
      · exact List.mem_filter.mpr ⟨ha, by simp [haq]⟩
      · rw [hb]; simp

/-- C2 witness: break conservation evaluated on `dsB` at position 4. -/
theorem applyBreak_conservation_witness :
    (leftSegment qBRec "qB" 4).name = "qB" ++ "_1" ∧
    (leftSegment qBRec "qB" 4).length = 4 ∧
    (rightSegment qBRec "qB" 4).name = "qB" ++ "_2" ∧
    (rightSegment qBRec "qB" 4).length = qBRec.length - 4 ∧
    (leftSegment qBRec "qB" 4).length + (rightSegment qBRec "qB" 4).length =
      qBRec.length ∧
    (∃ pre post, dsB.queries = pre ++ qBRec :: post ∧
      (applyBreak dsB "qB" 4).queries =
        pre ++ (leftSegment qBRec "qB" 4 :: rightSegment qBRec "qB" 4 :: post)) ∧
    ∀ a ∈ dsB.alignments, a.query = "qB" → a.queryStart < 4 → 4 < a.queryEnd →
      ∃ a1 a2, breakAlignment "qB" 4 a = [a1, a2] ∧
        a1 ∈ (applyBreak dsB "qB" 4).alignments ∧
        a2 ∈ (applyBreak dsB "qB" 4).alignments ∧
        a1.isPartial = true ∧ a2.isPartial = true ∧
        (a1.queryEnd - a1.queryStart) + (a2.queryEnd - a2.queryStart) =
          a.queryEnd - a.queryStart :=
  applyBreak_conservation dsB "qB" 4 qBRec (by decide) (by decide) (by decide)

/-- C6 counterexample: a Break at the invalid position 0 is not rejected:
the derived working dataset differs from the dataset derived with the
modification removed (the contig is replaced by a zero-length `qB_1` and
a full-length `qB_2`). -/
theorem invalidBreakPosition_not_rejected :
    applyModificationsToVisualization dsB [breakQBAt0] [] ≠
      applyModificationsToVisualization dsB [] [] ∧
    (applyModificationsToVisualization dsB [breakQBAt0] []).queries.map (·.name) =
      ["qB_1", "qB_2"] ∧
    (applyModificationsToVisualization dsB [breakQBAt0] []).queries.map (·.length) =
      [0, 10] := by
  refine ⟨by decide, by decide, by decide⟩

/-- C6 (amended): an Invert or Break modification whose query names a
contig absent from the dataset at the point it is processed is a local
no-op: the derived working dataset equals the dataset derived from the
same list with that modification removed. -/
theorem unknownQuery_modification_noop (d : Dataset) (ms1 ms2 : List Modification)
    (m : Modification) (co : List (String × Nat))
    (htype : m.type = "invert" ∨ m.type = "break")
    (habsent : (ms1.foldl applyModification d).queries.find?
      (fun x => x.name == m.query) = none) :
    applyModificationsToVisualization d (ms1 ++ m :: ms2) co =
      applyModificationsToVisualization d (ms1 ++ ms2) co := by
  have hmid : applyModification (ms1.foldl applyModification d) m =
      ms1.foldl applyModification d := by
    rcases htype with h | h
    · simp [applyModification, h, applyInversion, habsent]
    · simp [applyModification, h, applyBreak, habsent]
  simp only [applyModificationsToVisualization, List.foldl_append, List.foldl_cons, hmid]

/-- C6 witness: an Invert of the absent contig `zz` is a no-op on
`dsB`. -/
theorem unknownQuery_modification_noop_witness :
    applyModificationsToVisualization dsB
        ([] ++ { type := "invert", query := "zz" } :: [breakQBAt0]) [] =
      applyModificationsToVisualization dsB ([] ++ [breakQBAt0]) [] :=
  unknownQuery_modification_noop dsB [] [breakQBAt0]
    { type := "invert", query := "zz" } [] (Or.inl rfl) (by decide)

/-- C7: the deriving effect never writes the original dataset; deriving
processes the modification list strictly in order (the fold over a
concatenation is the fold of the second part over the result of the
first, with the contig reordering applied once at the end); and the
derived output is determined by the original dataset, the modification
list and the contig order alone. -/
theorem derive_pure_ordered :
    (∀ (s : AppDataState) (ms : List Modification) (co : List (String × Nat)),
      (deriveEffect s ms co).originalData = s.originalData) ∧
    (∀ (d : Dataset) (ms1 ms2 : List Modification) (co : List (String × Nat)),
      applyModificationsToVisualization d (ms1 ++ ms2) co =
        (if co.isEmpty then ms2.foldl applyModification (ms1.foldl applyModification d)
         else applyContigReordering
           (ms2.foldl applyModification (ms1.foldl applyModification d)) co)) ∧
    (∀ (d1 d2 : Dataset) (ms1 ms2 : List Modification) (co1 co2 : List (String × Nat)),
      d1 = d2 → ms1 = ms2 → co1 = co2 →
      applyModificationsToVisualization d1 ms1 co1 =
        applyModificationsToVisualization d2 ms2 co2) := by
  refine ⟨fun s ms co => rfl, ?_, ?_⟩
  · intro d ms1 ms2 co
    simp [applyModificationsToVisualization, List.foldl_append]
  · intro d1 d2 ms1 ms2 co1 co2 h1 h2 h3
    rw [h1, h2, h3]

/-- Helper: `slice(-n)` distributes over a one-element append. -/
theorem takeLast_concat {α : Type} (n : Nat) (l : List α) (x : α) :
    takeLast (n + 1) (l ++ [x]) = takeLast n l ++ [x] := by
  simp only [takeLast, List.length_append, List.length_singleton]
  have h : l.length + 1 - (n + 1) = l.length - n := by omega
  rw [h, List.drop_append_of_le_length (by omega)]

/-- Helper: nested `slice(-n)` keeps the smaller suffix. -/
theorem takeLast_takeLast {α : Type} (m n : Nat) (l : List α) (h : m ≤ n) :
    takeLast m (takeLast n l) = takeLast m l := by
  simp only [takeLast, List.length_drop]
  rw [List.drop_drop]
  congr 1
  omega

/-- Helper: every history-pushing operation stores the pre-mutation
snapshot as the newest history entry, under the 50-entry cap. -/
theorem applyWsOp_history (w : Workspace) (o : WsOp) :
    (applyWsOp w o).history = takeLast 50 (w.history ++ [snap w]) := by
  cases o <;> rfl

/-- Helper: undo on a workspace with non-empty history restores the five
fields from the newest snapshot and pops it. -/
theorem handleUndo_concat (w : Workspace) (h : List Snapshot) (s : Snapshot)
    (hh : w.history = h ++ [s]) :
    snap (handleUndo w) = s ∧ (handleUndo w).history = h := by
  unfold handleUndo
  rw [hh, List.getLast?_concat]
  exact ⟨rfl, by simp [List.dropLast_concat]⟩

/-- Helper: strengthened undo induction: after `k ≤ 50` history-pushing
operations and `k` undos, the five mutable fields are restored and the
history is the pre-sequence history trimmed to its last `50 − k`
entries. -/
theorem undoN_applyWsOps (ops : List WsOp) : ∀ w : Workspace, ops.length ≤ 50 →
    snap (undoN ops.length (applyWsOps w ops)) = snap w ∧
    (undoN ops.length (applyWsOps w ops)).history =
      (if ops.length = 0 then w.history else takeLast (50 - ops.length) w.history) := by
  induction ops with
  | nil => intro w _; exact ⟨rfl, rfl⟩
  | cons o rest ih =>
    intro w hk
    set w1 := applyWsOp w o with hw1
    have hk' : rest.length + 1 ≤ 50 := by simpa using hk
    have hrest : rest.length ≤ 50 := by omega
    have happ : applyWsOps w (o :: rest) = applyWsOps w1 rest := rfl
    have hpush : w1.history = takeLast 49 w.history ++ [snap w] := by
      rw [hw1, applyWsOp_history]
      exact takeLast_concat 49 w.history (snap w)
    obtain ⟨ihsnap, ihhist⟩ := ih w1 hrest
    have hyhist : (undoN rest.length (applyWsOps w1 rest)).history =
        takeLast (49 - rest.length) w.history ++ [snap w] := by
      rw [ihhist]
      by_cases h0 : rest.length = 0
      · simp [h0, hpush]
      · rw [if_neg h0, hpush]
        have h1 : 50 - rest.length = (49 - rest.length) + 1 := by omega
        rw [h1, takeLast_concat]
        rw [takeLast_takeLast _ 49 _ (by omega)]
    have hlen : (o :: rest).length = rest.length + 1 := rfl
    rw [happ, hlen]
    have hundo := handleUndo_concat (undoN rest.length (applyWsOps w1 rest))
      (takeLast (49 - rest.length) w.history) (snap w) hyhist
    simp only [undoN]
    refine ⟨hundo.1, ?_⟩
    rw [hundo.2, if_neg (Nat.succ_ne_zero _)]
    congr 1
    omega

/-- C3 (amended): each of the five history-pushing workspace operations
(addModification, removeModification, createChromosomeGroup,
deleteChromosomeGroup, updateContigOrder) pushes a deep snapshot of the
five mutable fields before mutating, onto a stack capped at 50 entries;
and for any sequence of at most 50 such operations, that many undos
restore all five fields to the pre-sequence values.  (setSelection and
setUninformative push no snapshot; see the counterexample.) -/
theorem workspace_undo_restores (w : Workspace) (o : WsOp) (ops : List WsOp)
    (hlen : ops.length ≤ 50) :
    (applyWsOp w o).history = takeLast 50 (w.history ++ [snap w]) ∧
    snap (undoN ops.length (applyWsOps w ops)) = snap w :=
  ⟨applyWsOp_history w o, (undoN_applyWsOps ops w hlen).1⟩

/-- C3 counterexample: `setSelectedContigsForWorkspace` pushes no history
snapshot, so one mutating operation followed by one undo does not restore
the pre-sequence state: the selection stays `["b"]` instead of returning
to `["a"]`. -/
theorem selection_not_restored_by_undo :
    (setSelectedContigsForWorkspace wsC3 ["b"]).history = wsC3.history ∧
    (undoN 1 (setSelectedContigsForWorkspace wsC3 ["b"])).selectedContigs = ["b"] ∧
    wsC3.selectedContigs = ["a"] ∧
    snap (undoN 1 (setSelectedContigsForWorkspace wsC3 ["b"])) ≠ snap wsC3 := by
  refine ⟨by decide, by decide, by decide, by decide⟩

/-- C3 witness: two history-pushing operations on `wsC3` undone by two
undos restore the five fields. -/
theorem workspace_undo_restores_witness :
    (applyWsOp wsC3 (WsOp.setOrder [("q1", 3)])).history =
      takeLast 50 (wsC3.history ++ [snap wsC3]) ∧
    snap (undoN ([WsOp.addMod invertQ1 17, WsOp.setOrder [("q1", 3)]] : List WsOp).length
        (applyWsOps wsC3 [WsOp.addMod invertQ1 17, WsOp.setOrder [("q1", 3)]])) =
      snap wsC3 :=
  workspace_undo_restores wsC3 (WsOp.setOrder [("q1", 3)])
    [WsOp.addMod invertQ1 17, WsOp.setOrder [("q1", 3)]] (by decide)

/-- Helper: `Math.max` bounds its first argument from below. -/
theorem le_jsMax_left (a b : Rat) : a ≤ jsMax a b := by
  by_cases h : a ≤ b
  · simpa [jsMax, h] using h
  · simp [jsMax, h]

/-- Helper: `Math.max` of two bounded values is bounded. -/
theorem jsMax_le {a b c : Rat} (h1 : a ≤ c) (h2 : b ≤ c) : jsMax a b ≤ c := by
  by_cases h : a ≤ b
  · simpa [jsMax, h] using h2
  · simpa [jsMax, h] using h1

/-- Helper: `Math.min` bounds its first argument from above. -/
theorem jsMin_le_left (a b : Rat) : jsMin a b ≤ a := by
  by_cases h : a ≤ b
  · simp [jsMin, h]
  · simp only [jsMin, h, if_false]
    exact le_of_not_le h

/-- Helper: the stacking gap after a contig is strictly positive (it is
at least half a megabase). -/
theorem queryGap_pos (q : Query) : 0 < queryGap q := by
  have h : (1000000 : Rat) ≤ jsMax 1000000 ((q.length : Rat) * (1 / 10)) :=
    le_jsMax_left _ _
  by_cases hb : q.isBroken
  · simp only [queryGap, hb, if_true]
    linarith
  · simp only [queryGap, hb, Bool.false_eq_true, if_false]
    linarith

/-- Helper: every contig of the stacked list receives an offset at least
the starting offset. -/
theorem offsetsAux_mem_ge (b : Query) : ∀ (l : List Query) (c : Rat),
    (∀ q ∈ l, 0 ≤ (q.length : Rat)) → b ∈ l →
    ∃ v, ((offsetsAux c l).lookup b.name) = some v ∧ c ≤ v := by
  intro l
  induction l with
  | nil => intro c _ hb; cases hb
  | cons q rest ih =>
    intro c hlen hb
    by_cases hq : b.name = q.name
    · refine ⟨c, ?_, le_refl c⟩
      simp [offsetsAux, List.lookup, hq]
    · have hb' : b ∈ rest := by
        rcases List.mem_cons.mp hb with h | h
        · exact absurd (congrArg Query.name h) hq
        · exact h
      have hstep : c ≤ c + (q.length : Rat) + queryGap q := by
        have h1 : 0 ≤ (q.length : Rat) := hlen q (by simp)
        have h2 : 0 < queryGap q := queryGap_pos q
        linarith
      obtain ⟨v, hv, hcv⟩ :=
        ih (c + (q.length : Rat) + queryGap q) (fun x hx => hlen x (by simp [hx])) hb'
      refine ⟨v, ?_, le_trans hstep hcv⟩
      simpa [offsetsAux, List.lookup, beq_eq_false_iff_ne.mpr hq] using hv

/-- Helper: a contig occurring strictly before another in the stacked
list receives a strictly smaller offset (names assumed distinct). -/
theorem offsetsAux_pair_lt (a b : Query) : ∀ (l : List Query) (c : Rat),
    (∀ q ∈ l, 0 ≤ (q.length : Rat)) → (l.map Query.name).Nodup → List.Sublist [a, b] l →
    ∃ va vb, ((offsetsAux c l).lookup a.name) = some va ∧
      ((offsetsAux c l).lookup b.name) = some vb ∧ va < vb := by
  intro l
  induction l with
  | nil =>
    intro c _ _ hab
    exact absurd (List.sublist_nil.mp hab) (by simp)
  | cons q rest ih =>
    intro c hlen hnodup hab
    have hnodup0 : q.name ∉ rest.map Query.name ∧ (rest.map Query.name).Nodup := by
      rw [List.map_cons] at hnodup
      exact List.nodup_cons.mp hnodup
    cases hab with
    | cons _ h =>
      have ha : a ∈ rest := h.subset (by simp)
      have hb : b ∈ rest := h.subset (by simp)
      have hqa : a.name ≠ q.name := fun he =>
        hnodup0.1 (he ▸ List.mem_map_of_mem Query.name ha)
      have hqb : b.name ≠ q.name := fun he =>
        hnodup0.1 (he ▸ List.mem_map_of_mem Query.name hb)
      obtain ⟨va, vb, h1, h2, h3⟩ :=
        ih (c + (q.length : Rat) + queryGap q) (fun x hx => hlen x (by simp [hx]))
          hnodup0.2 h
      refine ⟨va, vb, ?_, ?_, h3⟩
      · simpa [offsetsAux, List.lookup, beq_eq_false_iff_ne.mpr hqa] using h1
      · simpa [offsetsAux, List.lookup, beq_eq_false_iff_ne.mpr hqb] using h2
    | cons₂ _ h =>
      have hb : b ∈ rest := List.singleton_sublist.mp h
      have hba : b.name ≠ a.name := fun he =>
        hnodup0.1 (he ▸ List.mem_map_of_mem Query.name hb)
      obtain ⟨vb, hvb, hcvb⟩ :=
        offsetsAux_mem_ge b rest (c + (a.length : Rat) + queryGap a)
          (fun x hx => hlen x (by simp [hx])) hb
      refine ⟨c, vb, ?_, ?_, ?_⟩
      · simp [offsetsAux, List.lookup]
      · simpa [offsetsAux, List.lookup, beq_eq_false_iff_ne.mpr hba] using hvb
      · have h1 : 0 ≤ (a.length : Rat) := hlen a (by simp)
        have h2 : 0 < queryGap a := queryGap_pos a
        linarith

/-- Helper: two distinct members of a list occur in one order or the
other as a two-element sublist. -/
theorem pair_sublist_of_mem {α : Type} {a b : α} : ∀ {l : List α},
    a ∈ l → b ∈ l → a ≠ b → List.Sublist [a, b] l ∨ List.Sublist [b, a] l := by
  intro l
  induction l with
  | nil => intro ha _ _; cases ha
  | cons x rest ih =>
    intro ha hb hne
    rcases List.mem_cons.mp ha with hax | ha'
    · subst hax
      have hb' : b ∈ rest := by
        rcases List.mem_cons.mp hb with h | h
        · exact absurd h.symm hne
        · exact h
      exact Or.inl ((List.singleton_sublist.mpr hb').cons₂ _)
    · rcases List.mem_cons.mp hb with hbx | hb'
      · subst hbx
        exact Or.inr ((List.singleton_sublist.mpr ha').cons₂ _)
      · exact (ih ha' hb' hne).imp (fun h => h.cons _) (fun h => h.cons _)

/-- C8 (amended): in the layout computation, a contig with a strictly
smaller `orderKey` (in particular, any pair of contigs with explicit
orders `oA < oB`) receives a strictly smaller vertical offset; and two
contigs with equal keys (in particular, two contigs with no explicit
order, which both receive the sentinel key 999999) keep their original
input order — the stable sort places the earlier input contig at the
strictly smaller offset, irrespective of alignment identities. -/
theorem layout_ordering (d : Dataset) (co : List (String × Nat)) (A B : Query)
    (hnodup : (d.queries.map Query.name).Nodup)
    (hlen : ∀ q ∈ d.queries, 0 ≤ (q.length : Rat))
    (hA : A ∈ d.queries) (hB : B ∈ d.queries) (hname : A.name ≠ B.name) :
    (orderKey co A < orderKey co B →
      ∃ va vb,
        ((calculateQueryOffsets (calculateScalesOrderedQueries d co)).lookup A.name) =
          some va ∧
        ((calculateQueryOffsets (calculateScalesOrderedQueries d co)).lookup B.name) =
          some vb ∧
        va < vb) ∧
    (orderKey co A = orderKey co B → List.Sublist [A, B] d.queries →
      ∃ va vb,
        ((calculateQueryOffsets (calculateScalesOrderedQueries d co)).lookup A.name) =
          some va ∧
        ((calculateQueryOffsets (calculateScalesOrderedQueries d co)).lookup B.name) =
          some vb ∧
        va < vb) := by
  have hAB : A ≠ B := fun h => hname (congrArg Query.name h)
  have hperm : List.Perm (orderedQueries d.queries co) d.queries :=
    List.perm_insertionSort _ _
  have hmemA : A ∈ orderedQueries d.queries co := hperm.mem_iff.mpr hA
  have hmemB : B ∈ orderedQueries d.queries co := hperm.mem_iff.mpr hB
  have hnodup2 : ((orderedQueries d.queries co).map Query.name).Nodup :=
    ((hperm.map Query.name).nodup_iff).mpr hnodup
  have hlen2 : ∀ q ∈ orderedQueries d.queries co, 0 ≤ (q.length : Rat) :=
    fun q hq => hlen q (hperm.subset hq)
  constructor
  · intro hlt
    have hsorted : List.Pairwise (fun a b => orderKey co a ≤ orderKey co b)
        (orderedQueries d.queries co) := by
      haveI ht : IsTotal Query (fun a b => orderKey co a ≤ orderKey co b) :=
        ⟨fun a b => Nat.le_total _ _⟩
      haveI htr : IsTrans Query (fun a b => orderKey co a ≤ orderKey co b) :=
        ⟨fun a b c h1 h2 => Nat.le_trans h1 h2⟩
      exact List.sorted_insertionSort _ _
    have hsub : List.Sublist [A, B] (orderedQueries d.queries co) := by
      rcases pair_sublist_of_mem hmemA hmemB hAB with h | h
      · exact h
      · exfalso
        have hba : orderKey co B ≤ orderKey co A :=
          List.rel_of_pairwise_cons (hsorted.sublist h) (by simp)
        omega
    exact offsetsAux_pair_lt A B _ 0 hlen2 hnodup2 hsub
  · intro heq hin
    have hsub : List.Sublist [A, B] (orderedQueries d.queries co) :=
      List.pair_sublist_insertionSort (le_of_eq heq) hin
    exact offsetsAux_pair_lt A B _ 0 hlen2 hnodup2 hsub

/-- C8 counterexample: with an empty contig order, neither contig has an
explicit order and `cB` has the strictly larger best-alignment identity,
so the claimed descending-identity fallback would place `cB` at the
smaller offset; the layout instead keeps the input order, giving `cA`
offset 0 and `cB` offset 1000100. -/
theorem layout_fallback_ignores_identity :
    (([] : List (String × Nat)).lookup "cA" = none) ∧
    (([] : List (String × Nat)).lookup "cB" = none) ∧
    bestAlignmentIdentity dsC8 "r" "cA" < bestAlignmentIdentity dsC8 "r" "cB" ∧
    ((calculateQueryOffsets (calculateScalesOrderedQueries dsC8 [])).lookup "cA" =
      some 0) ∧
    ((calculateQueryOffsets (calculateScalesOrderedQueries dsC8 [])).lookup "cB" =
      some 1000100) := by
  refine ⟨rfl, rfl, ?_, ?_, ?_⟩
  · norm_num [bestAlignmentIdentity, uniqueAlignmentsFor, dsC8, jsMax, List.filter,
      List.map, List.foldl]
  · norm_num [calculateQueryOffsets, calculateScalesOrderedQueries, orderedQueries,
      List.insertionSort, List.orderedInsert, orderKey, dsC8, offsetsAux, queryGap,
      jsMax, List.lookup]
  · norm_num [calculateQueryOffsets, calculateScalesOrderedQueries, orderedQueries,
      List.insertionSort, List.orderedInsert, orderKey, dsC8, offsetsAux, queryGap,
      jsMax, List.lookup]
    rfl

/-- C8 witness: the ordering law evaluated on `dsC8` with explicit orders
1 < 2. -/
theorem layout_ordering_witness :
    (orderKey [("cA", 1), ("cB", 2)] qCA < orderKey [("cA", 1), ("cB", 2)] qCB →
      ∃ va vb,
        ((calculateQueryOffsets
            (calculateScalesOrderedQueries dsC8 [("cA", 1), ("cB", 2)])).lookup
          qCA.name) = some va ∧
        ((calculateQueryOffsets
            (calculateScalesOrderedQueries dsC8 [("cA", 1), ("cB", 2)])).lookup
          qCB.name) = some vb ∧
        va < vb) ∧
    (orderKey [("cA", 1), ("cB", 2)] qCA = orderKey [("cA", 1), ("cB", 2)] qCB →
      List.Sublist [qCA, qCB] dsC8.queries →
      ∃ va vb,
        ((calculateQueryOffsets
            (calculateScalesOrderedQueries dsC8 [("cA", 1), ("cB", 2)])).lookup
          qCA.name) = some va ∧
        ((calculateQueryOffsets
            (calculateScalesOrderedQueries dsC8 [("cA", 1), ("cB", 2)])).lookup
          qCB.name) = some vb ∧
        va < vb) :=
  layout_ordering dsC8 [("cA", 1), ("cB", 2)] qCA qCB (by decide) (by decide)
    (by decide) (by decide) (by decide)

/-- C4 (amended): for a contig with at least one unique/unique_short
alignment to the selected reference, the visibility rules hold in
priority order: a grouped or modified contig is always allowed; an
uninformative contig that is neither grouped nor modified is excluded;
and an allowed contig that is neither grouped nor modified passes the
minimum-size check (given positive contig lengths) and the unique-ratio
threshold.  (A grouped or modified contig with no unique alignment to the
selected reference is not allowed; see the counterexample.) -/
theorem allowed_contigs_rules (d : Dataset) (ref : String)
    (groups : List (String × Group)) (mods : List Modification)
    (uninf : List String) (st : Settings) (c : String)
    (hals : (uniqueAlignmentsFor d ref c).isEmpty = false)
    (hwf : ∀ q ∈ d.queries, 0 < q.length) :
    (groupedOrModified groups mods c = true →
      allowedContig d ref groups mods uninf st c = true) ∧
    (groupedOrModified groups mods c = false → uninf.contains c = true →
      allowedContig d ref groups mods uninf st c = false) ∧
    (groupedOrModified groups mods c = false →
      allowedContig d ref groups mods uninf st c = true →
      ∃ contigInfo, d.queries.find? (fun q => q.name == c) = some contigInfo ∧
        st.minContigSize ≤ contigInfo.length ∧
        st.minUniqueRatio ≤
          ((((uniqueAlignmentsFor d ref c).map (·.length)).foldl (· + ·) 0 : Int) : Rat) /
            (contigInfo.length : Rat)) := by
  refine ⟨?_, ?_, ?_⟩
  · intro hg
    have hg' : (isInGroup groups c || hasModifications mods c) = true := hg
    simp [allowedContig, hals, hg']
  · intro hg hu
    have hg' : (isInGroup groups c || hasModifications mods c) = false := hg
    have hu' : c ∈ uninf := by simpa using hu
    simp [allowedContig, hals, hg', hu']
  · intro hg hallowed
    have hg' : (isInGroup groups c || hasModifications mods c) = false := hg
    by_cases hu : uninf.contains c
    · have hu' : c ∈ uninf := by simpa using hu
      simp [allowedContig, hals, hg', hu'] at hallowed
    · have hu' : c ∉ uninf := by simpa using hu
      cases hfind : d.queries.find? (fun q => q.name == c) with
      | none => simp [allowedContig, hals, hg', hu', hfind] at hallowed
      | some contigInfo =>
        have hmem : contigInfo ∈ d.queries := List.mem_of_find?_eq_some hfind
        have hpos : 0 < contigInfo.length := hwf contigInfo hmem
        simp [allowedContig, hals, hg', hu', hfind] at hallowed
        obtain ⟨hsz, hratio⟩ := hallowed
        refine ⟨contigInfo, rfl, ?_, hratio⟩
        -- either the size check is disabled (threshold non-positive, so the
        -- positive length dominates) or it is enabled and passed
        rcases hsz with h | h
        · omega
        · omega

/-- C4 counterexample: the contig `g` belongs to a chromosome group, yet
it is not allowed, because `allowedContigsSet` only iterates over contigs
with at least one unique/unique_short alignment to the selected reference
and `g` has only a repetitive one — contradicting the claim that a
grouped contig is always allowed. -/
theorem grouped_contig_without_unique_not_allowed :
    isInGroup groupsC4 "g" = true ∧
    allowedContig dsC4 "r" groupsC4 [] [] settingsC4 "g" = false ∧
    allowedContigsSet dsC4 "r" groupsC4 [] [] settingsC4 = [] := by
  refine ⟨by decide, by decide, by decide⟩

/-- C4 witness: the rules evaluated on `dsC1` (contig `q1` with one
unique alignment). -/
theorem allowed_contigs_rules_witness :
    (groupedOrModified [] [] "q1" = true →
      allowedContig dsC1 "chr1" [] [] [] settingsC4 "q1" = true) ∧
    (groupedOrModified [] [] "q1" = false → List.contains [] "q1" = true →
      allowedContig dsC1 "chr1" [] [] [] settingsC4 "q1" = false) ∧
    (groupedOrModified [] [] "q1" = false →
      allowedContig dsC1 "chr1" [] [] [] settingsC4 "q1" = true →
      ∃ contigInfo, dsC1.queries.find? (fun q => q.name == "q1") = some contigInfo ∧
        settingsC4.minContigSize ≤ contigInfo.length ∧
        settingsC4.minUniqueRatio ≤
          ((((uniqueAlignmentsFor dsC1 "chr1" "q1").map (·.length)).foldl (· + ·) 0 :
            Int) : Rat) / (contigInfo.length : Rat)) :=
  allowed_contigs_rules dsC1 "chr1" [] [] [] settingsC4 "q1" (by decide) (by decide)

/-- Helper: filtering first by another predicate never increases the
count of elements satisfying a predicate. -/
theorem length_filter_filter_le {α : Type} (p q : α → Bool) (l : List α) :
    ((l.filter p).filter q).length ≤ (l.filter q).length := by
  induction l with
  | nil => simp
  | cons x rest ih =>
    by_cases hp : p x <;> by_cases hq : q x <;>
      simp [List.filter_cons, hp, hq, -List.filter_filter] <;> omega

/-- C5 (spec-modelled): after the visibility rules, the capped allowed
set obeys the cap invariant `|allowedSet| ≤ max(cap, count of
grouped-or-modified contigs)`; the cap applies exactly when the
rule-allowed set exceeds the cap (and otherwise the set is unchanged);
and the per-contig metadata is consistent: contigs hidden by the
ratio/size filter fail the visibility rules while contigs hidden by the
cap pass them, so the two hidden classes are disjoint. -/
theorem visibility_cap_invariant (d : Dataset) (ref : String)
    (groups : List (String × Group)) (mods : List Modification)
    (uninf : List String) (st : Settings) (cap : Nat) :
    (computeAllowedWithCap d ref groups mods uninf st cap).allowedSet.length ≤
      max cap
        (((contigsWithUnique d ref).filter (groupedOrModified groups mods)).length) ∧
    (((contigsWithUnique d ref).filter
        (allowedContig d ref groups mods uninf st)).length ≤ cap →
      (computeAllowedWithCap d ref groups mods uninf st cap).capApplied = false ∧
      (computeAllowedWithCap d ref groups mods uninf st cap).allowedSet =
        (contigsWithUnique d ref).filter (allowedContig d ref groups mods uninf st)) ∧
    (cap < ((contigsWithUnique d ref).filter
        (allowedContig d ref groups mods uninf st)).length →
      (computeAllowedWithCap d ref groups mods uninf st cap).capApplied = true) ∧
    (∀ c, c ∈ (computeAllowedWithCap d ref groups mods uninf st cap).hiddenByFilter →
      allowedContig d ref groups mods uninf st c = false) ∧
    (∀ c, c ∈ (computeAllowedWithCap d ref groups mods uninf st cap).hiddenByCap →
      allowedContig d ref groups mods uninf st c = true) ∧
    (∀ c, ¬(c ∈ (computeAllowedWithCap d ref groups mods uninf st cap).hiddenByFilter ∧
      c ∈ (computeAllowedWithCap d ref groups mods uninf st cap).hiddenByCap)) := by
  have hfilter : ∀ c,
      c ∈ (computeAllowedWithCap d ref groups mods uninf st cap).hiddenByFilter →
      allowedContig d ref groups mods uninf st c = false := by
    intro c hc
    by_cases hcap : ((contigsWithUnique d ref).filter
        (allowedContig d ref groups mods uninf st)).length ≤ cap
    · simp only [computeAllowedWithCap, hcap, if_true] at hc
      simpa using (List.mem_filter.mp hc).2
    · simp only [computeAllowedWithCap, hcap, if_false] at hc
      simpa using (List.mem_filter.mp hc).2
  have hcapmem : ∀ c,
      c ∈ (computeAllowedWithCap d ref groups mods uninf st cap).hiddenByCap →
      allowedContig d ref groups mods uninf st c = true := by
    intro c hc
    by_cases hcap : ((contigsWithUnique d ref).filter
        (allowedContig d ref groups mods uninf st)).length ≤ cap
    · simp only [computeAllowedWithCap, hcap, if_true] at hc
      simp at hc
    · simp only [computeAllowedWithCap, hcap, if_false] at hc
      have hmem := List.mem_of_mem_drop hc
      have hmem2 := (List.perm_insertionSort
        (fun c1 c2 => contigLengthOf d c2 ≤ contigLengthOf d c1) _).subset hmem
      exact (List.mem_filter.mp (List.mem_filter.mp hmem2).1).2
  refine ⟨?_, ?_, ?_, hfilter, hcapmem, ?_⟩
  · by_cases hcap : ((contigsWithUnique d ref).filter
        (allowedContig d ref groups mods uninf st)).length ≤ cap
    · simp only [computeAllowedWithCap, hcap, if_true]
      exact le_trans hcap (Nat.le_max_left _ _)
    · simp only [computeAllowedWithCap, hcap, if_false, List.length_append]
      have htake := List.length_take_le
        (cap - (((contigsWithUnique d ref).filter
          (allowedContig d ref groups mods uninf st)).filter
            (groupedOrModified groups mods)).length)
        (List.insertionSort (fun c1 c2 => contigLengthOf d c2 ≤ contigLengthOf d c1)
          (((contigsWithUnique d ref).filter
            (allowedContig d ref groups mods uninf st)).filter
              (fun c => !(groupedOrModified groups mods c))))
      have hex := length_filter_filter_le
        (allowedContig d ref groups mods uninf st) (groupedOrModified groups mods)
        (contigsWithUnique d ref)
      rcases Nat.le_total (((contigsWithUnique d ref).filter
          (allowedContig d ref groups mods uninf st)).filter
            (groupedOrModified groups mods)).length cap with h | h
      · refine le_trans ?_ (Nat.le_max_left cap _)
        omega
      · refine le_trans ?_ (Nat.le_max_right cap _)
        omega
  · intro hcap
    simp [computeAllowedWithCap, hcap]
  · intro hcap
    simp only [computeAllowedWithCap, Nat.not_le.mpr hcap, if_false]
  · intro c ⟨h1, h2⟩
    have := hfilter c h1
    have := hcapmem c h2
    simp_all

/-- C5 witness: the cap invariant evaluated on `dsC1` with the default
cap of 500. -/
theorem visibility_cap_invariant_witness :
    (computeAllowedWithCap dsC1 "chr1" [] [] [] settingsC4 500).allowedSet.length ≤
      max 500
        (((contigsWithUnique dsC1 "chr1").filter (groupedOrModified [] [])).length) ∧
    (((contigsWithUnique dsC1 "chr1").filter
        (allowedContig dsC1 "chr1" [] [] [] settingsC4)).length ≤ 500 →
      (computeAllowedWithCap dsC1 "chr1" [] [] [] settingsC4 500).capApplied = false ∧
      (computeAllowedWithCap dsC1 "chr1" [] [] [] settingsC4 500).allowedSet =
        (contigsWithUnique dsC1 "chr1").filter
          (allowedContig dsC1 "chr1" [] [] [] settingsC4)) ∧
    (500 < ((contigsWithUnique dsC1 "chr1").filter
        (allowedContig dsC1 "chr1" [] [] [] settingsC4)).length →
      (computeAllowedWithCap dsC1 "chr1" [] [] [] settingsC4 500).capApplied = true) ∧
    (∀ c, c ∈ (computeAllowedWithCap dsC1 "chr1" [] [] [] settingsC4 500).hiddenByFilter →
      allowedContig dsC1 "chr1" [] [] [] settingsC4 c = false) ∧
    (∀ c, c ∈ (computeAllowedWithCap dsC1 "chr1" [] [] [] settingsC4 500).hiddenByCap →
      allowedContig dsC1 "chr1" [] [] [] settingsC4 c = true) ∧
    (∀ c, ¬(c ∈ (computeAllowedWithCap dsC1 "chr1" [] [] [] settingsC4 500).hiddenByFilter ∧
      c ∈ (computeAllowedWithCap dsC1 "chr1" [] [] [] settingsC4 500).hiddenByCap)) :=
  visibility_cap_invariant dsC1 "chr1" [] [] [] settingsC4 500

/-- C9 counterexample: the Reset View button is rendered in both modes
and resets the camera, so a camera operation is not a no-op outside
exploration mode: in scaffolding mode it changes the zoom from 2 to 1 and
the pan from (5, 7) to (0, 0). -/
theorem resetView_moves_camera_in_scaffolding_mode :
    vsC9.explorationMode = false ∧
    (cameraStep vsC9 CameraEvent.resetViewClick).zoom ≠ vsC9.zoom ∧
    (cameraStep vsC9 CameraEvent.resetViewClick).panX ≠ vsC9.panX := by
  refine ⟨rfl, by decide, by decide⟩

/-- C9 (amended): every camera event except the Reset View click leaves
zoom and pan unchanged outside exploration mode; and a wheel event in
exploration mode clamps the new zoom to `[0.1, 10]` and recenters the pan
so the point under the cursor stays fixed:
`newPan = cursor − (cursor − oldPan) × (newZoom / oldZoom)`. -/
theorem camera_gating_and_wheel (s t : ViewState) (e : CameraEvent) (mx my dy : Rat)
    (hmode : s.explorationMode = false) (hne : e ≠ CameraEvent.resetViewClick)
    (hmode' : t.explorationMode = true) :
    ((cameraStep s e).zoom = s.zoom ∧ (cameraStep s e).panX = s.panX ∧
      (cameraStep s e).panY = s.panY) ∧
    ((cameraStep t (CameraEvent.wheel mx my dy)).zoom =
        jsMax (1 / 10) (jsMin 10 (t.zoom + dy * (-1 / 1000))) ∧
      (1 / 10 : Rat) ≤ (cameraStep t (CameraEvent.wheel mx my dy)).zoom ∧
      (cameraStep t (CameraEvent.wheel mx my dy)).zoom ≤ 10 ∧
      (cameraStep t (CameraEvent.wheel mx my dy)).panX =
        mx - (mx - t.panX) * ((cameraStep t (CameraEvent.wheel mx my dy)).zoom / t.zoom) ∧
      (cameraStep t (CameraEvent.wheel mx my dy)).panY =
        my - (my - t.panY) * ((cameraStep t (CameraEvent.wheel mx my dy)).zoom / t.zoom)) := by
  constructor
  · cases e with
    | wheel a b c => simp [cameraStep, handleWheel, hmode]
    | mouseDown a b => simp [cameraStep, handleMouseDown, hmode]
    | mouseMove a b => simp [cameraStep, handleMouseMove, hmode]
    | mouseUp =>
      by_cases hd : s.isDragging <;> simp [cameraStep, handleMouseUp, hd]
    | toolbarZoomIn => simp [cameraStep, hmode]
    | toolbarZoomOut => simp [cameraStep, hmode]
    | resetViewClick => exact absurd rfl hne
  · refine ⟨?_, ?_, ?_, ?_, ?_⟩
    · simp [cameraStep, handleWheel, hmode']
    · simp only [cameraStep, handleWheel, hmode']
      simp only [Bool.not_true, Bool.false_eq_true, if_false]
      exact le_jsMax_left _ _
    · simp only [cameraStep, handleWheel, hmode']
      simp only [Bool.not_true, Bool.false_eq_true, if_false]
      exact jsMax_le (by norm_num) (jsMin_le_left _ _)
    · simp [cameraStep, handleWheel, hmode']
    · simp [cameraStep, handleWheel, hmode']

/-- C9 witness: the gating and wheel law evaluated at the concrete
scaffolding-mode state `vsC9`, the exploration-mode state `vsExp`, and a
concrete wheel gesture. -/
theorem camera_gating_and_wheel_witness :
    ((cameraStep vsC9 CameraEvent.toolbarZoomIn).zoom = vsC9.zoom ∧
      (cameraStep vsC9 CameraEvent.toolbarZoomIn).panX = vsC9.panX ∧
      (cameraStep vsC9 CameraEvent.toolbarZoomIn).panY = vsC9.panY) ∧
    ((cameraStep vsExp (CameraEvent.wheel 100 50 (-300))).zoom =
        jsMax (1 / 10) (jsMin 10 (vsExp.zoom + (-300) * (-1 / 1000))) ∧
      (1 / 10 : Rat) ≤ (cameraStep vsExp (CameraEvent.wheel 100 50 (-300))).zoom ∧
      (cameraStep vsExp (CameraEvent.wheel 100 50 (-300))).zoom ≤ 10 ∧
      (cameraStep vsExp (CameraEvent.wheel 100 50 (-300))).panX =
        100 - (100 - vsExp.panX) *
          ((cameraStep vsExp (CameraEvent.wheel 100 50 (-300))).zoom / vsExp.zoom) ∧
      (cameraStep vsExp (CameraEvent.wheel 100 50 (-300))).panY =
        50 - (50 - vsExp.panY) *
          ((cameraStep vsExp (CameraEvent.wheel 100 50 (-300))).zoom / vsExp.zoom)) :=
  camera_gating_and_wheel vsC9 vsExp CameraEvent.toolbarZoomIn 100 50 (-300) rfl
    (by decide) rfl

/-- C7 witness: the in-order decomposition evaluated on `dsC1` with the
two-invert list split in the middle. -/
theorem derive_pure_ordered_witness :
    applyModificationsToVisualization dsC1 ([invertQ1] ++ [invertQ1]) [] =
      (if ([] : List (String × Nat)).isEmpty then
        [invertQ1].foldl applyModification ([invertQ1].foldl applyModification dsC1)
       else applyContigReordering
        ([invertQ1].foldl applyModification ([invertQ1].foldl applyModification dsC1)) []) :=
  derive_pure_ordered.2.1 dsC1 [invertQ1] [invertQ1] []

end YARBS
